import Mathlib

/-!
Verification development for the debug-statement cleanup engine
(`src/parser.js` and `src/extension.js`, classes `DebugStatementParser`
and `CodeCleaner`).

Text is modelled as `List Char` (JS strings over the ASCII fragment our
inputs use).  JS regular expressions appearing in the source are embedded
as deterministic matchers; the only backtracking point in any of the four
fallback patterns is the method-name alternation of the console pattern,
which is modelled by trying the alternatives in source order with the full
pattern tail.  Recursions whose argument shrinks by a computed amount use a
fuel parameter initialised to the input length, which is always sufficient
because every recursive call consumes at least one character; this keeps
every definition kernel-computable.
-/

/-- Model of the JS `\s` character class restricted to the ASCII whitespace
characters (space, tab, newline, carriage return, vertical tab, form feed);
the inputs considered contain no other whitespace. -/
def isWs (c : Char) : Bool :=
  c == ' ' || c == '\t' || c == '\n' || c == '\r' || c == '\x0b' || c == '\x0c'

/-- The character class `[ \t]` of the trailing-whitespace regex. -/
def isSpTab (c : Char) : Bool :=
  c == ' ' || c == '\t'

/-- JS `String.prototype.trim`: drop whitespace from both ends. -/
def jsTrim (l : List Char) : List Char :=
  ((l.dropWhile isWs).reverse.dropWhile isWs).reverse

/-- JS `code.split('\n')`. -/
def splitNl : List Char → List (List Char)
  | [] => [[]]
  | c :: rest =>
    if c = '\n' then [] :: splitNl rest
    else
      match splitNl rest with
      | [] => [[c]]
      | l :: ls => (c :: l) :: ls

/-- A debug-statement record as produced by `DebugStatementParser`
(src/parser.js): `type` is one of the strings `console`, `print`,
`system.out`, `debugger`; `start`/`endOff` are the half-open offset range
(`end` in the source); `text` is the source substring of that range. -/
structure Stmt where
  type : List Char
  line : Nat
  column : Nat
  start : Nat
  endOff : Nat
  text : List Char
  lineContent : List Char
deriving DecidableEq

/-- The configuration record built in `CodeCleaner`'s constructor
(src/extension.js lines 850-870). -/
structure Config where
  removeConsoleLog : Bool
  removeConsoleWarn : Bool
  removeConsoleError : Bool
  removeConsoleInfo : Bool
  removeConsoleDebug : Bool
  removeConsoleTrace : Bool
  removeDebugger : Bool
  removePrint : Bool
  removeSystemOut : Bool
  maxEmptyLines : Nat
  cleanWhitespace : Bool
  preserveComments : Bool
  showPreview : Bool
  autoSave : Bool
deriving DecidableEq

/-- The defaults applied by the constructor (`??` fallbacks): every removal
flag is true except `removeConsoleError`, `maxEmptyLines` is 2,
`cleanWhitespace` is true. -/
def defaultConfig : Config :=
  { removeConsoleLog := true
    removeConsoleWarn := true
    removeConsoleError := false
    removeConsoleInfo := true
    removeConsoleDebug := true
    removeConsoleTrace := true
    removeDebugger := true
    removePrint := true
    removeSystemOut := true
    maxEmptyLines := 2
    cleanWhitespace := true
    preserveComments := true
    showPreview := false
    autoSave := false }

/-- An entry of `removedStatements`: the source pushes
`{ ...statement, originalPosition: statement.start }`. -/
structure RemovedStmt where
  stmt : Stmt
  originalPosition : Nat
deriving DecidableEq

/-- The value returned by `CodeCleaner.removeDebugStatements`. -/
structure CleanResult where
  cleanCode : List Char
  removedCount : Nat
  removedStatements : List RemovedStmt
deriving DecidableEq

/-! ## Fallback lexical scanner (src/parser.js, `fallbackRegexParse`)

A matcher takes the text from some position onward and returns the length
of the (deterministic, greedy) regex match starting there, or `none`. -/

/-- Matchers: match length at the head of the list, if any. -/
def Matcher : Type := List Char → Option Nat

/-- Literal word. -/
def mLit (w : List Char) : Matcher := fun l =>
  if w.isPrefixOf l then some w.length else none

/-- A single character satisfying `p` (regex `\(`, `\)` etc.). -/
def mChar (p : Char → Bool) : Matcher := fun l =>
  match l with
  | [] => none
  | c :: _ => if p c then some 1 else none

/-- Greedy star over a character class (`\s*`, `[^)]*`): always succeeds,
consuming the maximal run.  No backtracking is needed anywhere this is
used, because the character class never overlaps what the pattern demands
next. -/
def mStar (p : Char → Bool) : Matcher := fun l =>
  some (l.takeWhile p).length

/-- Optional single character (`;?`). -/
def mOpt (c : Char) : Matcher := fun l =>
  match l with
  | [] => some 0
  | d :: _ => if d = c then some 1 else some 0

/-- Sequencing of two matchers. -/
def mSeq (p q : Matcher) : Matcher := fun l =>
  match p l with
  | none => none
  | some i =>
    match q (l.drop i) with
    | none => none
    | some j => some (i + j)

/-- Ordered alternation: JS tries the alternatives of a group left to
right, backtracking into the next alternative when the rest of the pattern
fails. -/
def mFirst : List Matcher → Matcher
  | [], _ => none
  | p :: ps, l =>
    match p l with
    | some i => some i
    | none => mFirst ps l

/-- The tail `\s*\([^)]*\)\s*;?\s*` shared by the console, print and
System.out patterns. -/
def callTail : Matcher :=
  mSeq (mStar isWs)
    (mSeq (mChar (fun c => c == '('))
      (mSeq (mStar (fun c => c != ')'))
        (mSeq (mChar (fun c => c == ')'))
          (mSeq (mStar isWs) (mSeq (mOpt ';') (mStar isWs))))))

/-- The tail `\s*;?\s*` of the debugger pattern. -/
def termTail : Matcher :=
  mSeq (mStar isWs) (mSeq (mOpt ';') (mStar isWs))

/-- The console method names, in the order of the source alternation. -/
def consoleMethods : List String :=
  ["log", "debug", "info", "warn", "error", "trace", "table", "time", "timeEnd"]

/-- Regex `console\.(log|debug|info|warn|error|trace|table|time|timeEnd)\s*\([^)]*\)\s*;?\s*`. -/
def consoleM : Matcher :=
  mFirst (consoleMethods.map (fun m => mSeq (mLit ("console." ++ m).data) callTail))

/-- Regex `print\s*\([^)]*\)\s*;?\s*`. -/
def printM : Matcher :=
  mSeq (mLit "print".data) callTail

/-- Regex `System\.out\.println\s*\([^)]*\)\s*;?\s*`. -/
def systemOutM : Matcher :=
  mSeq (mLit "System.out.println".data) callTail

/-- Regex `debugger\s*;?\s*`. -/
def debuggerM : Matcher :=
  mSeq (mLit "debugger".data) termTail

/-- The `while ((match = regex.exec(code)) !== null)` loop of a global
regex: scan left to right; on a match record its `(start, end)` offsets
and resume at the match end.  `pos` is the offset of the current suffix.
Each step consumes at least one character, so fuel `= length` suffices. -/
def scanFrom (m : Matcher) : Nat → List Char → Nat → List (Nat × Nat)
  | 0, _, _ => []
  | _ + 1, [], _ => []
  | fuel + 1, c :: rest, pos =>
    match m (c :: rest) with
    | some len =>
      if len = 0 then scanFrom m fuel rest (pos + 1)
      else (pos, pos + len) :: scanFrom m fuel ((c :: rest).drop len) (pos + len)
    | none => scanFrom m fuel rest (pos + 1)

/-- The line-number loop of `fallbackRegexParse` (and, with identical
logic, of `addDebugStatement`): returns `(lineNumber, lineStart)`, with
`lineNumber` left at its initial value 1 when no line matches. -/
def findLineF (start : Nat) : List (List Char) → Nat → Nat → Nat × Nat
  | [], _, lineStart => (1, lineStart)
  | line :: rest, i, lineStart =>
    if start ≥ lineStart ∧ start ≤ lineStart + line.length then (i + 1, lineStart)
    else findLineF start rest (i + 1) (lineStart + line.length + 1)

/-- Build the statement record `fallbackRegexParse` pushes for a match with
offsets `p` in `code`. -/
def mkFallbackStmt (ty : List Char) (code : List Char) (p : Nat × Nat) : Stmt :=
  let lines := splitNl code
  let ln := findLineF p.1 lines 0 0
  { type := ty
    line := ln.1
    column := p.1 - ln.2
    start := p.1
    endOff := p.2
    text := (code.drop p.1).take (p.2 - p.1)
    lineContent := jsTrim (lines.getD (ln.1 - 1) []) }

/-- All statements one pattern contributes. -/
def scanPattern (m : Matcher) (ty : List Char) (code : List Char) : List Stmt :=
  (scanFrom m code.length code 0).map (mkFallbackStmt ty code)

/-- Ascending order on `start` used by the final
`statements.sort((a, b) => a.start - b.start)`. -/
def ascRel (a b : Stmt) : Prop := a.start ≤ b.start

instance : DecidableRel ascRel := fun a b => Nat.decLe a.start b.start

instance : IsTotal Stmt ascRel := ⟨fun a b => Nat.le_total a.start b.start⟩

instance : IsTrans Stmt ascRel := ⟨fun _ _ _ h h' => Nat.le_trans h h'⟩

/-- `DebugStatementParser.fallbackRegexParse`: run the four patterns
independently over the whole text, merge, and sort ascending by start
offset. -/
def fallbackRegexParse (code : List Char) : List Stmt :=
  List.insertionSort ascRel
    (scanPattern consoleM "console".data code ++
      scanPattern printM "print".data code ++
      scanPattern systemOutM "system.out".data code ++
      scanPattern debuggerM "debugger".data code)

/-! ## Structural scanner entry point (src/parser.js, `parseCode`,
`addDebugStatement`)

The structural pass itself is the external babel parser plus an AST
traversal; it is not part of this repository's sources, so it is
abstracted as an `Option (List Stmt)`: `some stmts` when the babel parse
and traversal succeed, `none` when `parse` throws.  What the repository's
own code contributes is the `try`/`catch`: on a parse error it logs a
warning and returns `fallbackRegexParse(code)` directly. -/

/-- `DebugStatementParser.parseCode` with the external babel phase
abstracted: on structural success the collected statements are returned,
on a parse error the source catches and returns the lexical fallback's
result (it does not rethrow and has no failure value). -/
def parseCode (structural : Option (List Stmt)) (code : List Char) : List Stmt :=
  match structural with
  | some stmts => stmts
  | none => fallbackRegexParse code

/-- The semicolon extension of `addDebugStatement`: match `/^[\s]*;/`
against the text after the node and extend the end offset past it. -/
def semicolonExt (code : List Char) (e : Nat) : Nat :=
  let afterStatement := code.drop e
  let ws := afterStatement.takeWhile isWs
  if (afterStatement.drop ws.length).head? = some ';' then e + ws.length + 1 else e

/-- `DebugStatementParser.addDebugStatement`, given the babel node's
offsets `nodeStart`/`nodeEnd` and the statement kind string. -/
def addDebugStatement (code : List Char) (ty : List Char) (nodeStart nodeEnd : Nat) : Stmt :=
  let e := semicolonExt code nodeEnd
  let lines := splitNl code
  let ln := findLineF nodeStart lines 0 0
  { type := ty
    line := ln.1
    column := nodeStart - ln.2
    start := nodeStart
    endOff := e
    text := (code.drop nodeStart).take (e - nodeStart)
    lineContent := jsTrim (lines.getD (ln.1 - 1) []) }

/-! ## Statement filter (src/extension.js, `filterStatementsByConfig`) -/

/-- JS `hay.includes(needle)`: substring containment. -/
def jsIncludes (hay needle : List Char) : Bool :=
  if needle.isPrefixOf hay then true
  else
    match hay with
    | [] => false
    | _ :: rest => jsIncludes rest needle

/-- The predicate of `filterStatementsByConfig`'s `statements.filter`:
console statements are tested by substring containment of
`console.<method>` in the statement's raw text (JS `String.includes`),
the other kinds by their single flag; unknown types pass. -/
def keepStmt (cfg : Config) (s : Stmt) : Bool :=
  if s.type = "console".data then
    if jsIncludes s.text "console.log".data && !cfg.removeConsoleLog then false
    else if jsIncludes s.text "console.warn".data && !cfg.removeConsoleWarn then false
    else if jsIncludes s.text "console.error".data && !cfg.removeConsoleError then false
    else if jsIncludes s.text "console.info".data && !cfg.removeConsoleInfo then false
    else if jsIncludes s.text "console.debug".data && !cfg.removeConsoleDebug then false
    else if jsIncludes s.text "console.trace".data && !cfg.removeConsoleTrace then false
    else true
  else if s.type = "debugger".data then cfg.removeDebugger
  else if s.type = "print".data then cfg.removePrint
  else if s.type = "system.out".data then cfg.removeSystemOut
  else true

/-- `CodeCleaner.filterStatementsByConfig`. -/
def filterStatementsByConfig (cfg : Config) (statements : List Stmt) : List Stmt :=
  statements.filter (keepStmt cfg)

/-! ## Text surgeon (src/extension.js, `removeStatement` and helpers) -/

/-- The context record computed by `analyzeStatementContext`. -/
structure StmtCtx where
  lineNumber : Nat
  lineStart : Nat
  line : List Char
  beforeInLine : List Char
  afterInLine : List Char
  isOnOwnLine : Bool
  isAtLineStart : Bool
  isAtLineEnd : Bool
deriving DecidableEq

/-- The line-search loop of `analyzeStatementContext`: defaults to line 0,
line start 0 (the initial values) when the loop finds no line. -/
def findLineC (start : Nat) : List (List Char) → Nat → Nat → Nat × Nat
  | [], _, _ => (0, 0)
  | line :: rest, i, currentPos =>
    if start ≥ currentPos ∧ start < currentPos + line.length + 1 then (i, currentPos)
    else findLineC start rest (i + 1) (currentPos + line.length + 1)

/-- `CodeCleaner.analyzeStatementContext`. -/
def analyzeStatementContext (code : List Char) (s : Stmt) : StmtCtx :=
  let lines := splitNl code
  let ln := findLineC s.start lines 0 0
  let line := lines.getD ln.1 []
  let statementStartInLine := s.start - ln.2
  let statementEndInLine := s.endOff - ln.2
  let beforeInLine := line.take statementStartInLine
  let afterInLine := line.drop statementEndInLine
  { lineNumber := ln.1
    lineStart := ln.2
    line := line
    beforeInLine := beforeInLine
    afterInLine := afterInLine
    isOnOwnLine := jsTrim beforeInLine = [] ∧ jsTrim afterInLine = []
    isAtLineStart := jsTrim beforeInLine = []
    isAtLineEnd := jsTrim afterInLine = [] }

/-- `CodeCleaner.cleanLeadingCommaOrSemicolon`:
`before.replace(/[,;]\s*$/, '')` — strip one trailing comma or semicolon
together with the whitespace following it at the end of the fragment. -/
def cleanLeadingCommaOrSemicolon (before : List Char) : List Char :=
  let r := before.reverse
  let ws := r.takeWhile isWs
  match (r.drop ws.length).head? with
  | some ',' => ((r.drop ws.length).tail).reverse
  | some ';' => ((r.drop ws.length).tail).reverse
  | _ => before

/-- `CodeCleaner.cleanTrailingCommaOrSemicolon`:
`after.replace(/^\s*,/, '')` — strip a leading comma (with the whitespace
before it) from the fragment. -/
def cleanTrailingCommaOrSemicolon (after : List Char) : List Char :=
  let rest := after.dropWhile isWs
  match rest.head? with
  | some ',' => rest.tail
  | _ => after

/-- `CodeCleaner.removeEntireLine` (the context argument is passed by the
source but not used in the body). -/
def removeEntireLine (before after : List Char) (_ctx : StmtCtx) :
    List Char × List Char :=
  let beforeLines := splitNl before
  let adjustedAfter :=
    if after.head? = some '\n' then after.drop 1
    else if "\r\n".data.isPrefixOf after then after.drop 2
    else after
  let adjustedBefore :=
    if beforeLines.length > 0 ∧ jsTrim (beforeLines.getLastD []) = [] then
      let popped := beforeLines.dropLast
      (List.intercalate ['\n'] popped) ++ (if popped.length > 0 then ['\n'] else [])
    else before
  (adjustedBefore, adjustedAfter)

/-- The `{ code, removed }` value returned by `removeStatement` (the
source sets `removed: true` unconditionally). -/
structure RemovalResult where
  code : List Char
  removed : Bool

/-- `CodeCleaner.removeStatement`: splice the statement's offset range out
of the current buffer, with the per-context edge cleanup. -/
def removeStatement (code : List Char) (s : Stmt) : RemovalResult :=
  let before := code.take s.start
  let after := code.drop s.endOff
  let context := analyzeStatementContext code s
  let adjusted :=
    if context.isOnOwnLine then
      removeEntireLine before after context
    else if context.isAtLineStart then
      (before, cleanTrailingCommaOrSemicolon after)
    else if context.isAtLineEnd then
      (cleanLeadingCommaOrSemicolon before, after)
    else
      (cleanLeadingCommaOrSemicolon before, cleanTrailingCommaOrSemicolon after)
  { code := adjusted.1 ++ adjusted.2, removed := true }

/-! ## Global whitespace normalization (src/extension.js, `cleanWhitespace`) -/

/-- Step one of `cleanWhitespace`:
`code.replace(new RegExp(`(\n\s*){maxLines + 1,}`, 'g'), '\n'.repeat(maxLines))`.
A match of that pattern must start at a newline and, being greedy, always
extends to the end of the maximal whitespace run containing it; it exists
exactly when that run holds at least `maxLines + 1` newline characters
(each iteration consumes one leading `\n`, and `\s*` absorbs the rest).
So: walking the text, a maximal whitespace run starting at a newline is
replaced by `maxLines` newlines when it contains `> maxLines` newlines,
and kept otherwise.  Fuel (`= length`) makes the recursion structural;
every call consumes at least one character. -/
def collapseBlank (n : Nat) : Nat → List Char → List Char
  | 0, l => l
  | _ + 1, [] => []
  | fuel + 1, c :: rest =>
    if c = '\n' then
      let ws := rest.takeWhile isWs
      let run := c :: ws
      let rest' := rest.dropWhile isWs
      if n + 1 ≤ run.count '\n' then
        List.replicate n '\n' ++ collapseBlank n fuel rest'
      else run ++ collapseBlank n fuel rest'
    else c :: collapseBlank n fuel rest

/-- Step two of `cleanWhitespace`: `code.replace(/[ \t]+$/gm, '')` — a
maximal run of spaces/tabs is deleted when it sits at the end of a line
(followed by a newline or the end of the text). -/
def stripTrailingWs : Nat → List Char → List Char
  | 0, l => l
  | _ + 1, [] => []
  | fuel + 1, c :: rest =>
    if isSpTab c then
      let run := (c :: rest).takeWhile isSpTab
      let rest' := (c :: rest).dropWhile isSpTab
      if rest'.head? = some '\n' ∨ rest' = [] then stripTrailingWs fuel rest'
      else run ++ stripTrailingWs fuel rest'
    else c :: stripTrailingWs fuel rest

/-- Step three of `cleanWhitespace`: `code.replace(/\n*$/, '\n')` — the
(possibly empty) trailing newline run becomes exactly one newline. -/
def finalNewline (l : List Char) : List Char :=
  (l.reverse.dropWhile (fun c => c == '\n')).reverse ++ ['\n']

/-- `CodeCleaner.cleanWhitespace`: blank-line collapsing, per-line
trailing-whitespace strip, final-newline normalization. -/
def cleanWhitespace (maxLines : Nat) (code : List Char) : List Char :=
  let s1 := collapseBlank maxLines code.length code
  let s2 := stripTrailingWs s1.length s1
  finalNewline s2

/-! ## Removal driver (src/extension.js, `removeDebugStatements`) -/

/-- Descending order on `start` used by
`filteredStatements.sort((a, b) => b.start - a.start)`. -/
def descRel (a b : Stmt) : Prop := b.start ≤ a.start

instance : DecidableRel descRel := fun a b => Nat.decLe b.start a.start

instance : IsTotal Stmt descRel := ⟨fun a b => Nat.le_total b.start a.start⟩

instance : IsTrans Stmt descRel := ⟨fun _ _ _ h h' => Nat.le_trans h' h⟩

/-- One iteration of the `sortedStatements.forEach` loop: thread the
buffer, bump the counter and push the removed-statement record (the
source's `removed` flag is always true). -/
def stepRemove (acc : List Char × Nat × List RemovedStmt) (s : Stmt) :
    List Char × Nat × List RemovedStmt :=
  let r := removeStatement acc.1 s
  if r.removed then
    (r.code, acc.2.1 + 1, acc.2.2 ++ [{ stmt := s, originalPosition := s.start }])
  else
    (r.code, acc.2.1, acc.2.2)

/-- `CodeCleaner.removeDebugStatements`: early return on an empty input
list or an empty filtered list (no whitespace pass in either case);
otherwise sort descending by start, splice each statement out, optionally
normalize whitespace, and report the pushed records reversed (ascending). -/
def removeDebugStatements (cfg : Config) (code : List Char) (statements : List Stmt) :
    CleanResult :=
  if statements.isEmpty then
    { cleanCode := code, removedCount := 0, removedStatements := [] }
  else
    let filteredStatements := filterStatementsByConfig cfg statements
    if filteredStatements.isEmpty then
      { cleanCode := code, removedCount := 0, removedStatements := [] }
    else
      let sortedStatements := List.insertionSort descRel filteredStatements
      let res := sortedStatements.foldl stepRemove (code, 0, [])
      let cleanCode := if cfg.cleanWhitespace then cleanWhitespace cfg.maxEmptyLines res.1 else res.1
      { cleanCode := cleanCode
        removedCount := res.2.1
        removedStatements := res.2.2.reverse }

/-! ## Claim-specific constants and auxiliary notions -/

/-- The six console methods that have a configuration flag
(`removeConsole<Method>`); `table`, `time` and `timeEnd` are recognized by
the scanners (src/parser.js `isConsoleCall` and the fallback pattern) but
have no flag in `filterStatementsByConfig`. -/
inductive CMethod where
  | log | warn | error | info | debug | trace
deriving DecidableEq, Fintype

/-- The substring `filterStatementsByConfig` searches for a flagged
method. -/
def ctag : CMethod → List Char
  | .log => "console.log".data
  | .warn => "console.warn".data
  | .error => "console.error".data
  | .info => "console.info".data
  | .debug => "console.debug".data
  | .trace => "console.trace".data

/-- The configuration flag paired with a flagged method. -/
def cflag (cfg : Config) : CMethod → Bool
  | .log => cfg.removeConsoleLog
  | .warn => cfg.removeConsoleWarn
  | .error => cfg.removeConsoleError
  | .info => cfg.removeConsoleInfo
  | .debug => cfg.removeConsoleDebug
  | .trace => cfg.removeConsoleTrace

/-- Scenario-3 input: three statements sharing one line. -/
def c2text : List Char := "const r = f(); console.log(r); return r;".data

/-- The statement the structural scanner produces on `c2text`: the babel
call node `console.log(r)` spans offsets 15 to 29, and `addDebugStatement`
extends the end past the semicolon to 30. -/
def c2stmt : Stmt := addDebugStatement c2text "console".data 15 29

/-- A structurally unparseable text (unbalanced brace) in which removing
the lexical `debugger;` occurrence splices `console.` and `log(1);`
together. -/
def c9text : List Char := "\x7b\nconsole.debugger;log(1);\n".data

/-- A structurally unparseable text (unbalanced brace) containing one
console.log occurrence, for the parse-failure claims. -/
def c6text : List Char := "function f() \x7b console.log(1); ".data

/-- The single statement the fallback scanner finds in `console.log(1);`. -/
def c1stmt : Stmt :=
  { type := "console".data
    line := 1
    column := 0
    start := 0
    endOff := 15
    text := "console.log(1);".data
    lineContent := "console.log(1);".data }

/-- The single statement the fallback scanner finds in `console.table(1);`. -/
def c10stmt : Stmt :=
  { type := "console".data
    line := 1
    column := 0
    start := 0
    endOff := 17
    text := "console.table(1);".data
    lineContent := "console.table(1);".data }

/-- A configuration with every flagged console method disabled. -/
def allConsoleOffConfig : Config :=
  { defaultConfig with
      removeConsoleLog := false
      removeConsoleWarn := false
      removeConsoleError := false
      removeConsoleInfo := false
      removeConsoleDebug := false
      removeConsoleTrace := false }

/-! ## Theorems -/

/-- `keepStmt` on a non-console statement reduces to the kind's single
flag. -/
theorem keepStmt_debugger (cfg : Config) (s : Stmt) (h : s.type = "debugger".data) :
    keepStmt cfg s = cfg.removeDebugger := by
  rw [keepStmt, h]
  rw [if_neg (by decide), if_pos rfl]

theorem keepStmt_print (cfg : Config) (s : Stmt) (h : s.type = "print".data) :
    keepStmt cfg s = cfg.removePrint := by
  rw [keepStmt, h]
  rw [if_neg (by decide), if_neg (by decide), if_pos rfl]

theorem keepStmt_systemOut (cfg : Config) (s : Stmt) (h : s.type = "system.out".data) :
    keepStmt cfg s = cfg.removeSystemOut := by
  rw [keepStmt, h]
  rw [if_neg (by decide), if_neg (by decide), if_neg (by decide), if_pos rfl]

/-- `keepStmt` on a console statement whose raw text contains the tag of
exactly one flagged method reduces to that method's flag. -/
theorem keepStmt_console (cfg : Config) (s : Stmt) (m : CMethod)
    (htype : s.type = "console".data)
    (hself : jsIncludes s.text (ctag m) = true)
    (hother : ∀ m' : CMethod, m' ≠ m → jsIncludes s.text (ctag m') = false) :
    keepStmt cfg s = cflag cfg m := by
  cases m with
  | log =>
    have h2 := hother .warn (by decide)
    have h3 := hother .error (by decide)
    have h4 := hother .info (by decide)
    have h5 := hother .debug (by decide)
    have h6 := hother .trace (by decide)
    simp only [ctag] at hself
    simp only [ctag] at h2 h3 h4 h5 h6
    cases hb : cfg.removeConsoleLog <;>
      simp [keepStmt, htype, hself, h2, h3, h4, h5, h6, cflag, hb]
  | warn =>
    have h1 := hother .log (by decide)
    have h3 := hother .error (by decide)
    have h4 := hother .info (by decide)
    have h5 := hother .debug (by decide)
    have h6 := hother .trace (by decide)
    simp only [ctag] at hself
    simp only [ctag] at h1 h3 h4 h5 h6
    cases hb : cfg.removeConsoleWarn <;>
      simp [keepStmt, htype, hself, h1, h3, h4, h5, h6, cflag, hb]
  | error =>
    have h1 := hother .log (by decide)
    have h2 := hother .warn (by decide)
    have h4 := hother .info (by decide)
    have h5 := hother .debug (by decide)
    have h6 := hother .trace (by decide)
    simp only [ctag] at hself
    simp only [ctag] at h1 h2 h4 h5 h6
    cases hb : cfg.removeConsoleError <;>
      simp [keepStmt, htype, hself, h1, h2, h4, h5, h6, cflag, hb]
  | info =>
    have h1 := hother .log (by decide)
    have h2 := hother .warn (by decide)
    have h3 := hother .error (by decide)
    have h5 := hother .debug (by decide)
    have h6 := hother .trace (by decide)
    simp only [ctag] at hself
    simp only [ctag] at h1 h2 h3 h5 h6
    cases hb : cfg.removeConsoleInfo <;>
      simp [keepStmt, htype, hself, h1, h2, h3, h5, h6, cflag, hb]
  | debug =>
    have h1 := hother .log (by decide)
    have h2 := hother .warn (by decide)
    have h3 := hother .error (by decide)
    have h4 := hother .info (by decide)
    have h6 := hother .trace (by decide)
    simp only [ctag] at hself
    simp only [ctag] at h1 h2 h3 h4 h6
    cases hb : cfg.removeConsoleDebug <;>
      simp [keepStmt, htype, hself, h1, h2, h3, h4, h6, cflag, hb]
  | trace =>
    have h1 := hother .log (by decide)
    have h2 := hother .warn (by decide)
    have h3 := hother .error (by decide)
    have h4 := hother .info (by decide)
    have h5 := hother .debug (by decide)
    simp only [ctag] at hself
    simp only [ctag] at h1 h2 h3 h4 h5
    cases hb : cfg.removeConsoleTrace <;>
      simp [keepStmt, htype, hself, h1, h2, h3, h4, h5, cflag, hb]

/-- `keepStmt` on a console statement whose raw text contains none of the
six flagged tags is true whatever the configuration. -/
theorem keepStmt_console_untagged (cfg : Config) (s : Stmt)
    (htype : s.type = "console".data)
    (hnone : ∀ m : CMethod, jsIncludes s.text (ctag m) = false) :
    keepStmt cfg s = true := by
  have h1 := hnone .log
  have h2 := hnone .warn
  have h3 := hnone .error
  have h4 := hnone .info
  have h5 := hnone .debug
  have h6 := hnone .trace
  simp only [ctag] at h1 h2 h3 h4 h5 h6
  simp [keepStmt, htype, h1, h2, h3, h4, h5, h6]

/-- C1 counterexample: with the default configuration (`removeConsoleLog`
true, `removeConsoleError` false), the console.log statement that the
scanner finds in `console.log(console.error);` — subKind `log`, whose flag
is true — is nevertheless rejected by the filter (hence kept in the file),
because the filter tests substring containment and the argument text
mentions `console.error`.  The claim requires it to be retained. -/
theorem claim_C1_counterexample :
    defaultConfig.removeConsoleLog = true ∧
    defaultConfig.removeConsoleError = false ∧
    (fallbackRegexParse "console.log(console.error);".data).map
        (fun s => (s.type, s.start, s.endOff)) = [("console".data, 0, 27)] ∧
    filterStatementsByConfig defaultConfig
        (fallbackRegexParse "console.log(console.error);".data) = [] := by
  refine ⟨rfl, rfl, by decide, by decide⟩

/-- C1 (amended): the filter decides console statements by substring
search of `console.<method>` over the statement's raw text, not by its
syntactic subKind: when the text contains the tag of exactly one flagged
method, the statement passes the filter iff that method's flag is true
(which coincides with the claimed per-subKind rule, and in particular
gives Scenario 5 for calls whose arguments mention no other method);
debugger, print and system-out statements pass iff their single flag is
true. -/
theorem claim_C1 :
    (∀ (cfg : Config) (stmts : List Stmt) (s : Stmt) (m : CMethod),
        s ∈ stmts → s.type = "console".data →
        jsIncludes s.text (ctag m) = true →
        (∀ m' : CMethod, m' ≠ m → jsIncludes s.text (ctag m') = false) →
        (s ∈ filterStatementsByConfig cfg stmts ↔ cflag cfg m = true)) ∧
    (∀ (cfg : Config) (stmts : List Stmt) (s : Stmt),
        s ∈ stmts → s.type = "debugger".data →
        (s ∈ filterStatementsByConfig cfg stmts ↔ cfg.removeDebugger = true)) ∧
    (∀ (cfg : Config) (stmts : List Stmt) (s : Stmt),
        s ∈ stmts → s.type = "print".data →
        (s ∈ filterStatementsByConfig cfg stmts ↔ cfg.removePrint = true)) ∧
    (∀ (cfg : Config) (stmts : List Stmt) (s : Stmt),
        s ∈ stmts → s.type = "system.out".data →
        (s ∈ filterStatementsByConfig cfg stmts ↔ cfg.removeSystemOut = true)) := by
  refine ⟨?_, ?_, ?_, ?_⟩
  · intro cfg stmts s m hmem htype hself hother
    rw [filterStatementsByConfig, List.mem_filter,
      keepStmt_console cfg s m htype hself hother]
    simp [hmem]
  · intro cfg stmts s hmem htype
    rw [filterStatementsByConfig, List.mem_filter, keepStmt_debugger cfg s htype]
    simp [hmem]
  · intro cfg stmts s hmem htype
    rw [filterStatementsByConfig, List.mem_filter, keepStmt_print cfg s htype]
    simp [hmem]
  · intro cfg stmts s hmem htype
    rw [filterStatementsByConfig, List.mem_filter, keepStmt_systemOut cfg s htype]
    simp [hmem]

/-- C1 witness: the console.log statement found in `console.log(1);`
passes the default-configuration filter iff `removeConsoleLog` is true. -/
theorem claim_C1_witness :
    c1stmt ∈ fallbackRegexParse "console.log(1);".data ∧
    (c1stmt ∈ filterStatementsByConfig defaultConfig
        (fallbackRegexParse "console.log(1);".data) ↔
      defaultConfig.removeConsoleLog = true) :=
  ⟨by decide,
    claim_C1.1 defaultConfig (fallbackRegexParse "console.log(1);".data) c1stmt
      CMethod.log (by decide) (by decide) (by decide) (by decide)⟩

/-- C10 counterexample: a console.table statement is not always retained
by the filter: the statement scanned from `console.table(console.log);`
is rejected when `removeConsoleLog` is false, because its raw text
contains the substring `console.log`. -/
theorem claim_C10_counterexample :
    (fallbackRegexParse "console.table(console.log);".data).map
        (fun s => (s.type, s.start, s.endOff)) = [("console".data, 0, 27)] ∧
    filterStatementsByConfig { defaultConfig with removeConsoleLog := false }
        (fallbackRegexParse "console.table(console.log);".data) = [] := by
  refine ⟨by decide, by decide⟩

/-- C10 (amended): a console statement passes the configuration filter
regardless of every `removeConsole*` setting whenever its raw text
contains none of the six flagged tags `console.log/warn/error/info/debug/trace`
— which holds in particular for plain `console.table`, `console.time` and
`console.timeEnd` calls, the three subKinds without a flag; but the test
is substring-based on the raw text, so an argument mentioning a flagged
method can veto the removal. -/
theorem claim_C10 :
    ∀ (cfg : Config) (stmts : List Stmt) (s : Stmt),
      s ∈ stmts → s.type = "console".data →
      (∀ m : CMethod, jsIncludes s.text (ctag m) = false) →
      s ∈ filterStatementsByConfig cfg stmts := by
  intro cfg stmts s hmem htype hnone
  rw [filterStatementsByConfig, List.mem_filter]
  exact ⟨hmem, keepStmt_console_untagged cfg s htype hnone⟩

/-- C10 witness: the console.table statement found in `console.table(1);`
passes the filter even with every flagged console method disabled. -/
theorem claim_C10_witness :
    c10stmt ∈ fallbackRegexParse "console.table(1);".data ∧
    c10stmt ∈ filterStatementsByConfig allConsoleOffConfig
      (fallbackRegexParse "console.table(1);".data) :=
  ⟨by decide,
    claim_C10 allConsoleOffConfig (fallbackRegexParse "console.table(1);".data)
      c10stmt (by decide) (by decide) (by decide)⟩

/-- C4 (confirmed): removing an empty statement list returns the original
text with `removedCount = 0` and no removed statements — the early return
fires before any whitespace normalization — and the same result is
produced whenever the configuration filter rejects every supplied
statement.  Zero statements is an ordinary result value, not an error. -/
theorem claim_C4 :
    (∀ (cfg : Config) (code : List Char),
        removeDebugStatements cfg code [] =
          { cleanCode := code, removedCount := 0, removedStatements := [] }) ∧
    (∀ (cfg : Config) (code : List Char) (stmts : List Stmt),
        filterStatementsByConfig cfg stmts = [] →
        removeDebugStatements cfg code stmts =
          { cleanCode := code, removedCount := 0, removedStatements := [] }) := by
  refine ⟨fun cfg code => by simp [removeDebugStatements], ?_⟩
  intro cfg code stmts h
  by_cases hs : stmts.isEmpty
  · simp [removeDebugStatements, hs]
  · simp [removeDebugStatements, hs, h]

/-- C4 witness: every statement found in `debugger;` is rejected when
`removeDebugger` is false, and removal then returns the input text
untouched (no trailing-newline normalization either). -/
theorem claim_C4_witness :
    filterStatementsByConfig { defaultConfig with removeDebugger := false }
        (fallbackRegexParse "debugger;".data) = [] ∧
    removeDebugStatements { defaultConfig with removeDebugger := false }
        "const x = 1;".data (fallbackRegexParse "debugger;".data) =
      { cleanCode := "const x = 1;".data, removedCount := 0, removedStatements := [] } :=
  ⟨by decide,
    claim_C4.2 { defaultConfig with removeDebugger := false } "const x = 1;".data
      (fallbackRegexParse "debugger;".data) (by decide)⟩

/-- C2 counterexample: on the one-line input
`const r = f(); console.log(r); return r;` with the structural
console.log statement (offsets 15 to 30, semicolon included) targeted,
the cleaned text is `const r = f() return r;` plus the normalized final
newline — the fragment `const r = f();` does NOT survive with its
semicolon, contradicting the claim. -/
theorem claim_C2_counterexample :
    (removeDebugStatements defaultConfig c2text [c2stmt]).cleanCode =
        "const r = f() return r;\n".data ∧
    jsIncludes (removeDebugStatements defaultConfig c2text [c2stmt]).cleanCode
        "const r = f();".data = false := by
  refine ⟨by decide, by decide⟩

/-- C2 (amended): on the Scenario-3 input the mid-line branch of
`removeStatement` excises the console.log call together with its trailing
semicolon AND strips the dangling `;` (with the whitespace before it)
left immediately before the removed span, so `const r = f()` loses its
semicolon while `return r;` survives unchanged on the same line; the
whitespace pass then appends the final newline. -/
theorem claim_C2 :
    (removeDebugStatements defaultConfig c2text [c2stmt]).cleanCode =
        "const r = f() return r;\n".data ∧
    (removeDebugStatements defaultConfig c2text [c2stmt]).removedCount = 1 ∧
    jsIncludes (removeDebugStatements defaultConfig c2text [c2stmt]).cleanCode
        "return r;".data = true ∧
    jsIncludes (removeDebugStatements defaultConfig c2text [c2stmt]).cleanCode
        "const r = f()".data = true := by
  refine ⟨by decide, by decide, by decide, by decide⟩

/-- C3 counterexample: with `maxEmptyLines = 2`, the input `a\n\n\n\nb`
contains one run of three blank lines, which the claim says must become
exactly two blank lines (so the output would contain three consecutive
newline characters); the code instead produces `a\n\nb\n`, a single blank
line, because its regex counts newline characters rather than blank
lines. -/
theorem claim_C3_counterexample :
    cleanWhitespace 2 "a\n\n\n\nb".data = "a\n\nb\n".data ∧
    jsIncludes (cleanWhitespace 2 "a\n\n\n\nb".data) "\n\n\n".data = false := by
  refine ⟨by decide, by decide⟩

/-- C6 counterexample: on structurally unparseable text (unbalanced
brace) `parseCode` does not fail with a `ParseFailure`: the catch block
returns the lexical fallback's (non-empty) statement list silently. -/
theorem claim_C6_counterexample :
    parseCode none c6text = fallbackRegexParse c6text ∧
    parseCode none c6text ≠ [] := by
  refine ⟨rfl, by decide⟩

/-- C6 (amended): when the structural parse fails, `parseCode` catches
the error and returns exactly the lexical fallback scanner's statements —
no failure value reaches the caller — and the fallback still locates
every occurrence matching its lexical patterns; on the unbalanced-brace
text it finds the console.log occurrence with its offsets. -/
theorem claim_C6 :
    (∀ code : List Char, parseCode none code = fallbackRegexParse code) ∧
    (parseCode none c6text).map (fun s => (s.type, s.start, s.endOff, s.text)) =
      [("console".data, 15, 31, "console.log(1); ".data)] := by
  refine ⟨fun code => rfl, by decide⟩

/-- C9 (code bug): cleaning is not detection-idempotent.  On the
structurally unparseable input `{\nconsole.debugger;log(1);\n` the
lexical scanner (which `parseCode` falls back to) finds the `debugger;`
occurrence; its mid-line removal splices the surrounding fragments
`console.` and `log(1);` into a brand-new `console.log(1);` statement, so
re-scanning the cleaned text and filtering with the same (default)
configuration yields a further removable statement. -/
theorem claim_C9 :
    (removeDebugStatements defaultConfig c9text (parseCode none c9text)).cleanCode =
        "\x7b\nconsole.log(1);\n".data ∧
    filterStatementsByConfig defaultConfig
        (parseCode none
          (removeDebugStatements defaultConfig c9text (parseCode none c9text)).cleanCode)
      ≠ [] := by
  refine ⟨by decide, by decide⟩

/-- `takeWhile` over a block of satisfying elements followed by a failing
one takes exactly the block. -/
theorem takeWhile_block {p : Char → Bool} (xs : List Char) {y : Char} (ys : List Char)
    (hx : ∀ x ∈ xs, p x = true) (hy : p y = false) :
    (xs ++ y :: ys).takeWhile p = xs := by
  induction xs with
  | nil => simp [List.takeWhile_cons_of_neg, hy]
  | cons x xs ih =>
    have hpx := hx x (by simp)
    rw [List.cons_append, List.takeWhile_cons_of_pos hpx,
      ih (fun z hz => hx z (by simp [hz]))]

/-- `dropWhile` over the same shape drops exactly the block. -/
theorem dropWhile_block {p : Char → Bool} (xs : List Char) {y : Char} (ys : List Char)
    (hx : ∀ x ∈ xs, p x = true) (hy : p y = false) :
    (xs ++ y :: ys).dropWhile p = y :: ys := by
  induction xs with
  | nil => simp [List.dropWhile_cons_of_neg, hy]
  | cons x xs ih =>
    have hpx := hx x (by simp)
    rw [List.cons_append, List.dropWhile_cons_of_pos hpx]
    exact ih (fun z hz => hx z (by simp [hz]))

theorem collapseBlank_nil (n fuel : Nat) : collapseBlank n fuel [] = [] := by
  cases fuel <;> rfl

theorem collapseBlank_cons_notNl (n fuel : Nat) {c : Char} (rest : List Char)
    (h : ¬c = '\n') :
    collapseBlank n (fuel + 1) (c :: rest) = c :: collapseBlank n fuel rest := by
  simp only [collapseBlank, if_neg h]

theorem collapseBlank_cons_nl (n fuel : Nat) (rest : List Char) :
    collapseBlank n (fuel + 1) ('\n' :: rest) =
      if n + 1 ≤ ('\n' :: rest.takeWhile isWs).count '\n' then
        List.replicate n '\n' ++ collapseBlank n fuel (rest.dropWhile isWs)
      else ('\n' :: rest.takeWhile isWs) ++ collapseBlank n fuel (rest.dropWhile isWs) := by
  simp [collapseBlank]

/-- A space or tab is whitespace. -/
theorem isWs_of_isSpTab {c : Char} (h : isSpTab c = true) : isWs c = true := by
  simp only [isSpTab, Bool.or_eq_true] at h
  rcases h with h | h <;> simp [isWs, h]

/-- `stripTrailingWs` is the identity on text containing no space or
tab. -/
theorem stripTrailingWs_id {l : List Char} (h : ∀ c ∈ l, isSpTab c = false) :
    ∀ fuel, stripTrailingWs fuel l = l := by
  induction l with
  | nil => intro fuel; cases fuel <;> rfl
  | cons c rest ih =>
    intro fuel
    cases fuel with
    | zero => rfl
    | succ fuel =>
      have hc := h c (by simp)
      simp only [stripTrailingWs, hc]
      rw [if_neg (by simp [hc]), ih (fun z hz => h z (by simp [hz])) fuel]

/-- C3 (amended): the blank-line pass counts newline characters, not
blank lines: with `cleanWhitespace` enabled and `maxEmptyLines = n ≥ 1`, a
run of `k ≥ n + 1` consecutive newline characters between two
non-whitespace characters — that is, `k - 1 ≥ n` blank lines — is
collapsed to exactly `n` newline characters (`n - 1` blank lines), and
the final-newline step appends the terminating newline.  (The claimed
unit, blank lines, is off by one from what the code implements, and for
`maxEmptyLines = 0` the replacement would delete the newline run
entirely.) -/
theorem claim_C3 :
    ∀ (n k : Nat) (a b : Char), 1 ≤ n → n + 1 ≤ k →
      isWs a = false → isWs b = false →
      cleanWhitespace n (a :: (List.replicate k '\n' ++ [b])) =
        a :: (List.replicate n '\n' ++ [b, '\n']) := by
  intro n k a b hn hk ha hb
  obtain ⟨j, rfl⟩ : ∃ j, k = j + 1 := ⟨k - 1, by omega⟩
  have ha' : ¬a = '\n' := by
    intro h; rw [h] at ha; exact absurd ha (by decide)
  have hb' : ¬b = '\n' := by
    intro h; rw [h] at hb; exact absurd hb (by decide)
  have hwsRep : ∀ x ∈ List.replicate j '\n', isWs x = true := by
    intro x hx
    rw [List.eq_of_mem_replicate hx]; rfl
  have hlen : (a :: (List.replicate (j + 1) '\n' ++ [b])).length = (j + 2) + 1 := by
    simp
  -- step one: the blank-line collapse
  have hstep1 :
      collapseBlank n ((j + 2) + 1) (a :: (List.replicate (j + 1) '\n' ++ [b])) =
        a :: (List.replicate n '\n' ++ [b]) := by
    rw [collapseBlank_cons_notNl n (j + 2) _ ha']
    rw [List.replicate_succ, List.cons_append]
    rw [show j + 2 = (j + 1) + 1 from rfl]
    rw [collapseBlank_cons_nl n (j + 1) (List.replicate j '\n' ++ [b])]
    rw [takeWhile_block (List.replicate j '\n') [] hwsRep hb]
    rw [dropWhile_block (List.replicate j '\n') [] hwsRep hb]
    rw [if_pos (by simp [List.count_cons, List.count_replicate]; omega)]
    rw [collapseBlank_cons_notNl n j [] hb', collapseBlank_nil]
  -- step two: no spaces or tabs anywhere, so the strip is the identity
  have hspA : isSpTab a = false := by
    cases hsp : isSpTab a with
    | false => rfl
    | true => exact absurd (isWs_of_isSpTab hsp) (by simp [ha])
  have hspB : isSpTab b = false := by
    cases hsp : isSpTab b with
    | false => rfl
    | true => exact absurd (isWs_of_isSpTab hsp) (by simp [hb])
  have hstep2 :
      ∀ fuel, stripTrailingWs fuel (a :: (List.replicate n '\n' ++ [b])) =
        a :: (List.replicate n '\n' ++ [b]) := by
    apply stripTrailingWs_id
    intro c hc
    simp at hc
    rcases hc with rfl | ⟨-, rfl⟩ | rfl
    · exact hspA
    · rfl
    · exact hspB
  -- step three: the final newline
  have hstep3 :
      finalNewline (a :: (List.replicate n '\n' ++ [b])) =
        a :: (List.replicate n '\n' ++ [b, '\n']) := by
    have hbeq : (b == '\n') = false := by
      cases hq : (b == '\n') with
      | false => rfl
      | true => exact absurd (by exact eq_of_beq hq) hb'
    simp [finalNewline, List.dropWhile, hbeq, List.append_assoc]
  rw [cleanWhitespace, hlen, hstep1, hstep2, hstep3]

/-- C3 witness: with `maxEmptyLines = 1`, the run of two newlines in
`a\n\nb` (one blank line, which the claim would leave untouched) becomes
a single newline. -/
theorem claim_C3_witness :
    1 ≤ 1 ∧ 1 + 1 ≤ 2 ∧ isWs 'a' = false ∧ isWs 'b' = false ∧
    cleanWhitespace 1 ('a' :: (List.replicate 2 '\n' ++ ['b'])) =
      'a' :: (List.replicate 1 '\n' ++ ['b', '\n']) :=
  ⟨by decide, by decide, by decide, by decide,
    claim_C3 1 2 'a' 'b' (by decide) (by decide) (by decide) (by decide)⟩

theorem isPrefixOf_self_append (w r : List Char) : w.isPrefixOf (w ++ r) = true := by
  rw [List.isPrefixOf_iff_prefix]
  exact List.prefix_append w r

theorem mLit_self (w r : List Char) : mLit w (w ++ r) = some w.length := by
  simp [mLit, isPrefixOf_self_append]

theorem mSeq_eq {p q : Matcher} {l : List Char} {i j : Nat}
    (hp : p l = some i) (hq : q (l.drop i) = some j) : mSeq p q l = some (i + j) := by
  simp [mSeq, hp, hq]

theorem mFirst_cons_some {p : Matcher} {ps : List Matcher} {l : List Char} {i : Nat}
    (hp : p l = some i) : mFirst (p :: ps) l = some i := by
  simp [mFirst, hp]

/-- The shared call tail `\s*\([^)]*\)\s*;?\s*` on an opening parenthesis
followed by close-free argument text and two closing parentheses: the
match stops at the first `)` and consumes nothing of the second. -/
theorem callTail_first_close (inner : List Char)
    (hx : ∀ c ∈ inner, (c != ')') = true) :
    callTail ('(' :: (inner ++ [')', ')'])) = some (inner.length + 2) := by
  have hFG : mSeq (mOpt ';') (mStar isWs) [')'] = some (0 + 0) :=
    mSeq_eq (by decide) (by decide)
  have hEFG : mSeq (mStar isWs) (mSeq (mOpt ';') (mStar isWs)) [')'] =
      some (0 + (0 + 0)) := mSeq_eq (by decide) hFG
  have hD : mSeq (mChar (fun c => c == ')'))
      (mSeq (mStar isWs) (mSeq (mOpt ';') (mStar isWs))) [')', ')'] =
      some (1 + (0 + (0 + 0))) := mSeq_eq (by decide) hEFG
  have hCstar : mStar (fun c => c != ')') (inner ++ [')', ')']) =
      some inner.length := by
    have : (inner ++ [')', ')']).takeWhile (fun c => c != ')') = inner :=
      takeWhile_block inner [')'] hx (by decide)
    simp [mStar, this]
  have hC : mSeq (mStar (fun c => c != ')'))
      (mSeq (mChar (fun c => c == ')'))
        (mSeq (mStar isWs) (mSeq (mOpt ';') (mStar isWs)))) (inner ++ [')', ')']) =
      some (inner.length + (1 + (0 + (0 + 0)))) := by
    refine mSeq_eq hCstar ?_
    rw [List.drop_left]
    exact hD
  have hB : mSeq (mChar (fun c => c == '('))
      (mSeq (mStar (fun c => c != ')'))
        (mSeq (mChar (fun c => c == ')'))
          (mSeq (mStar isWs) (mSeq (mOpt ';') (mStar isWs)))))
      ('(' :: (inner ++ [')', ')'])) =
      some (1 + (inner.length + (1 + (0 + (0 + 0))))) := by
    refine mSeq_eq (by simp [mChar]) ?_
    exact hC
  have hAstar : mStar isWs ('(' :: (inner ++ [')', ')'])) = some 0 := by
    have : ('(' :: (inner ++ [')', ')'])).takeWhile isWs = [] :=
      List.takeWhile_cons_of_neg (by decide)
    simp [mStar, this]
  have hfull : callTail ('(' :: (inner ++ [')', ')'])) =
      some (0 + (1 + (inner.length + (1 + (0 + (0 + 0)))))) := by
    rw [callTail]
    exact mSeq_eq hAstar hB
  rw [hfull]
  have : 0 + (1 + (inner.length + (1 + (0 + (0 + 0))))) = inner.length + 2 := by omega
  rw [this]

/-- C5 (amended): the fallback console pattern's argument span
`[^)]*` extends to the FIRST closing parenthesis after the call's opening
one, with no balancing of nested parentheses: on
`console.log(` + inner + `))` with `inner` free of `)`, the match
consumes the text up to and including the first `)` (13 + |inner|
characters) and leaves the outer `)` behind; `inner` may contain
newlines (calls spanning several lines) and the span is followed by
optional whitespace, an optional semicolon and trailing whitespace. -/
theorem claim_C5 :
    ∀ inner : List Char, ')' ∉ inner →
      consoleM ("console.log(".data ++ inner ++ "))".data) =
        some (13 + inner.length) := by
  intro inner hni
  have hx : ∀ c ∈ inner, (c != ')') = true := by
    intro c hc
    rw [bne_iff_ne]
    intro e
    exact hni (e ▸ hc)
  have h1 : "console.log(".data = "console.log".data ++ ['('] := rfl
  have h2 : "))".data = [')', ')'] := rfl
  have hform : "console.log(".data ++ inner ++ "))".data =
      "console.log".data ++ ('(' :: (inner ++ [')', ')'])) := by
    rw [h1, h2, List.append_assoc, List.append_assoc, List.singleton_append]
  rw [hform]
  have halt : mSeq (mLit ("console." ++ "log").data) callTail
      ("console.log".data ++ ('(' :: (inner ++ [')', ')'])))  =
      some ("console.log".data.length + (inner.length + 2)) := by
    refine mSeq_eq (mLit_self "console.log".data _) ?_
    rw [List.drop_left]
    exact callTail_first_close inner hx
  have hlen11 : "console.log".data.length = 11 := rfl
  have hconsole : consoleM ("console.log".data ++ ('(' :: (inner ++ [')', ')'])))  =
      some ("console.log".data.length + (inner.length + 2)) := by
    rw [consoleM, consoleMethods]
    rw [List.map_cons]
    exact mFirst_cons_some halt
  rw [hconsole, hlen11]
  have : 11 + (inner.length + 2) = 13 + inner.length := by omega
  rw [this]

/-- C5 witness: the argument text `f(x` + newline contains a nested
opening parenthesis and a line break; the match still stops at the first
closing parenthesis. -/
theorem claim_C5_witness :
    ')' ∉ (['f', '(', 'x', '\n'] : List Char) ∧
    consoleM ("console.log(".data ++ ['f', '(', 'x', '\n'] ++ "))".data) =
      some (13 + (['f', '(', 'x', '\n'] : List Char).length) :=
  ⟨by decide, claim_C5 ['f', '(', 'x', '\n'] (by decide)⟩

/-- C5 counterexample: on `console.log(f(x))` the claim's
depth-0-balanced span would be the whole call (offsets 0 to 17); the
scanner instead records the span 0 to 16, whose text `console.log(f(x)`
already stops at the inner closing parenthesis. -/
theorem claim_C5_counterexample :
    (fallbackRegexParse "console.log(f(x))".data).map
        (fun s => (s.type, s.start, s.endOff, s.text)) =
      [("console".data, 0, 16, "console.log(f(x)".data)] ∧
    (fallbackRegexParse "console.log(f(x))".data).map Stmt.text ≠
      ["console.log(f(x))".data] := by
  refine ⟨by decide, by decide⟩

/-- `removeStatement` always reports the statement as removed (the source
returns `removed: true` unconditionally). -/
theorem removeStatement_removed (code : List Char) (s : Stmt) :
    (removeStatement code s).removed = true := rfl

/-- The removal fold pushes one record per processed statement, in
processing order, carrying `originalPosition = start`. -/
theorem foldl_stepRemove_list (l : List Stmt) :
    ∀ (code : List Char) (n : Nat) (acc : List RemovedStmt),
      (l.foldl stepRemove (code, n, acc)).2.2 =
        acc ++ l.map (fun s => { stmt := s, originalPosition := s.start }) := by
  induction l with
  | nil => intro code n acc; simp
  | cons s l ih =>
    intro code n acc
    have hstep : stepRemove (code, n, acc) s =
        ((removeStatement code s).code, n + 1,
          acc ++ [{ stmt := s, originalPosition := s.start }]) := by
      simp [stepRemove, removeStatement_removed]
    rw [List.foldl_cons, hstep, ih]
    simp

/-- C7 (confirmed): on every invocation, `removedStatements` is ordered by
ascending original start offset (the statements are processed in
descending order and the pushed list is reversed at the end), each entry's
`originalPosition` is the statement's own `start`, and every recorded
statement is one of the supplied ones, whose offsets refer to the original
input text by construction. -/
theorem claim_C7 :
    ∀ (cfg : Config) (code : List Char) (stmts : List Stmt),
      ((removeDebugStatements cfg code stmts).removedStatements).Pairwise
          (fun x y => x.stmt.start ≤ y.stmt.start) ∧
      ∀ r ∈ (removeDebugStatements cfg code stmts).removedStatements,
        r.originalPosition = r.stmt.start ∧ r.stmt ∈ stmts := by
  intro cfg code stmts
  by_cases h1 : stmts.isEmpty
  · simp [removeDebugStatements, h1]
  · by_cases h2 : (filterStatementsByConfig cfg stmts).isEmpty
    · simp [removeDebugStatements, h1, h2]
    · have hred : (removeDebugStatements cfg code stmts).removedStatements =
          ((List.insertionSort descRel (filterStatementsByConfig cfg stmts)).map
            (fun s => { stmt := s, originalPosition := s.start })).reverse := by
        simp only [removeDebugStatements, if_neg h1, if_neg h2]
        rw [foldl_stepRemove_list]
        simp
      rw [hred]
      have hsorted : ((List.insertionSort descRel
          (filterStatementsByConfig cfg stmts)).map
            (fun s => ({ stmt := s, originalPosition := s.start } : RemovedStmt))).Pairwise
          (fun x y => y.stmt.start ≤ x.stmt.start) := by
        refine List.Pairwise.map _ ?_
          (List.sorted_insertionSort descRel (filterStatementsByConfig cfg stmts))
        intro a b hab
        exact hab
      constructor
      · rw [List.pairwise_reverse]
        exact hsorted
      · intro r hr
        rw [List.mem_reverse, List.mem_map] at hr
        obtain ⟨s, hs, rfl⟩ := hr
        refine ⟨rfl, ?_⟩
        have hmem : s ∈ filterStatementsByConfig cfg stmts :=
          ((List.perm_insertionSort descRel _).mem_iff).mp hs
        exact List.mem_of_mem_filter hmem

/-- C7 witness: on `debugger;` the single removed-statement record has
`originalPosition` equal to its original start offset and stems from the
scanned statement list. -/
theorem claim_C7_witness :
    (⟨⟨"debugger".data, 1, 0, 0, 9, "debugger;".data, "debugger;".data⟩, 0⟩ : RemovedStmt)
        ∈ (removeDebugStatements defaultConfig "debugger;".data
            (fallbackRegexParse "debugger;".data)).removedStatements ∧
    ((⟨⟨"debugger".data, 1, 0, 0, 9, "debugger;".data, "debugger;".data⟩, 0⟩ :
          RemovedStmt).originalPosition = 0 ∧
      (⟨"debugger".data, 1, 0, 0, 9, "debugger;".data, "debugger;".data⟩ : Stmt)
        ∈ fallbackRegexParse "debugger;".data) :=
  ⟨by decide,
    (claim_C7 defaultConfig "debugger;".data
      (fallbackRegexParse "debugger;".data)).2 _ (by decide)⟩

/-- A literal matcher never claims more than the input length. -/
theorem mLit_bound (w : List Char) :
    ∀ (l : List Char) (i : Nat), mLit w l = some i → i ≤ l.length := by
  intro l i h
  rw [mLit] at h
  by_cases hp : w.isPrefixOf l
  · rw [if_pos hp] at h
    cases h
    exact (List.isPrefixOf_iff_prefix.mp hp).length_le
  · rw [if_neg hp] at h
    cases h

theorem mChar_bound (p : Char → Bool) :
    ∀ (l : List Char) (i : Nat), mChar p l = some i → i ≤ l.length := by
  intro l i h
  cases l with
  | nil => cases h
  | cons c rest =>
    rw [mChar] at h
    by_cases hc : p c
    · rw [if_pos hc] at h
      cases h
      simp
    · rw [if_neg hc] at h
      cases h

theorem mStar_bound (p : Char → Bool) :
    ∀ (l : List Char) (i : Nat), mStar p l = some i → i ≤ l.length := by
  intro l i h
  rw [mStar] at h
  cases h
  exact (List.takeWhile_sublist p).length_le

theorem mOpt_bound (c : Char) :
    ∀ (l : List Char) (i : Nat), mOpt c l = some i → i ≤ l.length := by
  intro l i h
  cases l with
  | nil => rw [mOpt] at h; cases h; exact Nat.le_refl 0
  | cons d rest =>
    rw [mOpt] at h
    by_cases hd : d = c
    · rw [if_pos hd] at h; cases h; simp
    · rw [if_neg hd] at h; cases h; simp

theorem mSeq_bound {p q : Matcher}
    (hp : ∀ (l : List Char) (i : Nat), p l = some i → i ≤ l.length)
    (hq : ∀ (l : List Char) (i : Nat), q l = some i → i ≤ l.length) :
    ∀ (l : List Char) (i : Nat), mSeq p q l = some i → i ≤ l.length := by
  intro l i h
  rw [mSeq] at h
  split at h
  · cases h
  · rename_i a hpl
    split at h
    · cases h
    · rename_i b hql
      cases h
      have ha := hp l a hpl
      have hb := hq (l.drop a) b hql
      rw [List.length_drop] at hb
      omega

theorem mFirst_bound :
    ∀ (ps : List Matcher),
      (∀ p ∈ ps, ∀ (l : List Char) (i : Nat), p l = some i → i ≤ l.length) →
      ∀ (l : List Char) (i : Nat), mFirst ps l = some i → i ≤ l.length := by
  intro ps
  induction ps with
  | nil => intro _ l i h; cases h
  | cons p ps ih =>
    intro hall l i h
    rw [mFirst] at h
    split at h
    · rename_i a hpl
      cases h
      exact hall p (by simp) l _ hpl
    · rename_i hpl
      exact ih (fun q hq => hall q (by simp [hq])) l i h

theorem callTail_bound :
    ∀ (l : List Char) (i : Nat), callTail l = some i → i ≤ l.length := by
  rw [callTail]
  exact mSeq_bound (mStar_bound _)
    (mSeq_bound (mChar_bound _)
      (mSeq_bound (mStar_bound _)
        (mSeq_bound (mChar_bound _)
          (mSeq_bound (mStar_bound _)
            (mSeq_bound (mOpt_bound _) (mStar_bound _))))))

theorem termTail_bound :
    ∀ (l : List Char) (i : Nat), termTail l = some i → i ≤ l.length := by
  rw [termTail]
  exact mSeq_bound (mStar_bound _) (mSeq_bound (mOpt_bound _) (mStar_bound _))

theorem consoleM_bound :
    ∀ (l : List Char) (i : Nat), consoleM l = some i → i ≤ l.length := by
  rw [consoleM]
  refine mFirst_bound _ ?_
  intro p hp
  rw [List.mem_map] at hp
  obtain ⟨mth, -, rfl⟩ := hp
  exact mSeq_bound (mLit_bound _) callTail_bound

theorem printM_bound :
    ∀ (l : List Char) (i : Nat), printM l = some i → i ≤ l.length := by
  rw [printM]
  exact mSeq_bound (mLit_bound _) callTail_bound

theorem systemOutM_bound :
    ∀ (l : List Char) (i : Nat), systemOutM l = some i → i ≤ l.length := by
  rw [systemOutM]
  exact mSeq_bound (mLit_bound _) callTail_bound

theorem debuggerM_bound :
    ∀ (l : List Char) (i : Nat), debuggerM l = some i → i ≤ l.length := by
  rw [debuggerM]
  exact mSeq_bound (mLit_bound _) termTail_bound

/-- Offsets recorded by the scan loop: every recorded pair lies within
the scanned region, with a strictly positive width. -/
theorem scanFrom_bounds {m : Matcher}
    (hm : ∀ (l : List Char) (i : Nat), m l = some i → i ≤ l.length) :
    ∀ (fuel : Nat) (l : List Char) (pos : Nat) (p : Nat × Nat),
      p ∈ scanFrom m fuel l pos → pos ≤ p.1 ∧ p.1 < p.2 ∧ p.2 ≤ pos + l.length := by
  intro fuel
  induction fuel with
  | zero =>
    intro l pos p hp
    simp [scanFrom] at hp
  | succ fuel ih =>
    intro l pos p hp
    cases l with
    | nil => simp [scanFrom] at hp
    | cons c rest =>
      rw [scanFrom] at hp
      split at hp
      · rename_i len hmatch
        split at hp
        · have := ih rest (pos + 1) p hp
          simp only [List.length_cons]
          omega
        · rename_i hz
          have hlen := hm (c :: rest) len hmatch
          rcases List.mem_cons.mp hp with rfl | hp
          · refine ⟨Nat.le_refl _, ?_, ?_⟩
            · show pos < pos + len
              omega
            · show pos + len ≤ pos + (c :: rest).length
              omega
          · have := ih ((c :: rest).drop len) (pos + len) p hp
            rw [List.length_drop] at this
            simp only [List.length_cons] at this ⊢
            omega
      · rename_i hmatch
        have := ih rest (pos + 1) p hp
        simp only [List.length_cons]
        omega

/-- Every statement one fallback pattern contributes has in-bounds,
positive-width offsets. -/
theorem scanPattern_bounds {m : Matcher} {ty code : List Char} {s : Stmt}
    (hm : ∀ (l : List Char) (i : Nat), m l = some i → i ≤ l.length)
    (hs : s ∈ scanPattern m ty code) :
    s.start < s.endOff ∧ s.endOff ≤ code.length := by
  rw [scanPattern, List.mem_map] at hs
  obtain ⟨p, hp, rfl⟩ := hs
  have hb := scanFrom_bounds hm code.length code 0 p hp
  have hstart : (mkFallbackStmt ty code p).start = p.1 := rfl
  have hend : (mkFallbackStmt ty code p).endOff = p.2 := rfl
  rw [hstart, hend]
  exact ⟨hb.2.1, by omega⟩

/-- The semicolon extension never shrinks the end offset. -/
theorem semicolonExt_ge (code : List Char) (e : Nat) : e ≤ semicolonExt code e := by
  rw [semicolonExt]
  by_cases hc : (((code.drop e).drop ((code.drop e).takeWhile isWs).length).head? = some ';')
  · rw [if_pos hc]; omega
  · rw [if_neg hc]

/-- The semicolon extension stays within the text: the matched prefix of
`code.substring(end)` cannot be longer than that remainder. -/
theorem semicolonExt_le (code : List Char) (e : Nat) (he : e ≤ code.length) :
    semicolonExt code e ≤ code.length := by
  rw [semicolonExt]
  by_cases hc : (((code.drop e).drop ((code.drop e).takeWhile isWs).length).head? = some ';')
  · rw [if_pos hc]
    have hne : (code.drop e).drop ((code.drop e).takeWhile isWs).length ≠ [] := by
      intro h0
      rw [h0] at hc
      cases hc
    have hpos := List.length_pos.mpr hne
    rw [List.length_drop, List.length_drop] at hpos
    omega
  · rw [if_neg hc]
    exact he

/-- C8 (confirmed): every statement returned by the fallback lexical
scanner, and every statement the structural pass builds through
`addDebugStatement` from a babel node whose offsets satisfy
`0 ≤ start < end ≤ length` (babel's own guarantee), has
`0 ≤ startOffset < endOffset ≤ text.length` (the lower bound is inherent
to the `Nat` offsets). -/
theorem claim_C8 :
    (∀ (code : List Char) (s : Stmt), s ∈ fallbackRegexParse code →
        s.start < s.endOff ∧ s.endOff ≤ code.length) ∧
    (∀ (code ty : List Char) (nodeStart nodeEnd : Nat),
        nodeStart < nodeEnd → nodeEnd ≤ code.length →
        (addDebugStatement code ty nodeStart nodeEnd).start <
            (addDebugStatement code ty nodeStart nodeEnd).endOff ∧
          (addDebugStatement code ty nodeStart nodeEnd).endOff ≤ code.length) := by
  constructor
  · intro code s hs
    rw [fallbackRegexParse] at hs
    have hmem := ((List.perm_insertionSort ascRel _).mem_iff).mp hs
    rcases List.mem_append.mp hmem with hmem' | hdbg
    · rcases List.mem_append.mp hmem' with hmem'' | hsys
      · rcases List.mem_append.mp hmem'' with hcon | hpr
        · exact scanPattern_bounds consoleM_bound hcon
        · exact scanPattern_bounds printM_bound hpr
      · exact scanPattern_bounds systemOutM_bound hsys
    · exact scanPattern_bounds debuggerM_bound hdbg
  · intro code ty nodeStart nodeEnd hlt hle
    have hstart : (addDebugStatement code ty nodeStart nodeEnd).start = nodeStart := rfl
    have hend : (addDebugStatement code ty nodeStart nodeEnd).endOff =
        semicolonExt code nodeEnd := rfl
    rw [hstart, hend]
    exact ⟨Nat.lt_of_lt_of_le hlt (semicolonExt_ge code nodeEnd),
      semicolonExt_le code nodeEnd hle⟩

/-- C8 witness: the debugger statement scanned from `debugger;` and the
structural statement built on `console.log(1) ;` (babel node offsets 0
and 14, semicolon extension to 16) both satisfy the offset bounds. -/
theorem claim_C8_witness :
    ((⟨"debugger".data, 1, 0, 0, 9, "debugger;".data, "debugger;".data⟩ : Stmt)
        ∈ fallbackRegexParse "debugger;".data ∧
      ((⟨"debugger".data, 1, 0, 0, 9, "debugger;".data, "debugger;".data⟩ : Stmt).start <
          (⟨"debugger".data, 1, 0, 0, 9, "debugger;".data, "debugger;".data⟩ : Stmt).endOff ∧
        (⟨"debugger".data, 1, 0, 0, 9, "debugger;".data, "debugger;".data⟩ : Stmt).endOff ≤
          "debugger;".data.length)) ∧
    ((0 : Nat) < 14 ∧ 14 ≤ "console.log(1) ;".data.length ∧
      ((addDebugStatement "console.log(1) ;".data "console".data 0 14).start <
          (addDebugStatement "console.log(1) ;".data "console".data 0 14).endOff ∧
        (addDebugStatement "console.log(1) ;".data "console".data 0 14).endOff ≤
          "console.log(1) ;".data.length)) :=
  ⟨⟨by decide,
      claim_C8.1 "debugger;".data
        ⟨"debugger".data, 1, 0, 0, 9, "debugger;".data, "debugger;".data⟩ (by decide)⟩,
    by decide, by decide,
    claim_C8.2 "console.log(1) ;".data "console".data 0 14 (by decide) (by decide)⟩
